import Mathlib

/-!
Verification of the node-pipeline library (execution plan, pipeline handler,
execution context) against its natural-language specification.

The embedding models handler objects by numeric identities.  A plan state
carries the ordered sequence of handler identities (the `_handlers` array of
`ExecutionPlan`) together with a heap `next : Nat → Option Nat` giving each
handler object its current `_next` reference (`none` models an absent
reference, i.e. the JavaScript value `undefined`).

Every structural mutation method of `ExecutionPlan` is embedded as a function
`PlanState → PlanState × Option Err`: the returned state is the state at the
moment the method returns or throws, and the second component is the thrown
error, if any.  A method of the source that mutated before throwing would
therefore be embedded as a function returning a changed state together with
`some` error; atomicity of rejected calls is a provable property, not an
artifact of the embedding.

Nullable arguments of the source are embedded as `Option Nat` (`none` models
both `null` and `undefined`, which the handler-argument checks of the source
treat identically).  The context argument of `PipelineHandler.invoke` is
special: the source checks `context === undefined` only, so the embedding
distinguishes a defined context, `null`, and `undefined`.
-/

namespace NodePipeline

/-- Error values thrown by the source, one constructor per distinct message:
`Index does not exist in handlers.`, `Handler cannot be null or undefined.`,
`New handler cannot be null or undefined.`, `Handler does not exist in
handlers.`, the duplicate-membership message, `Pipeline is empty.`, and
`The context parameter is undefined.`. -/
inductive Err where
  | indexNotExist
  | handlerNullOrUndefined
  | newHandlerNullOrUndefined
  | handlerNotExist
  | duplicateHandler
  | pipelineEmpty
  | contextUndefined
deriving DecidableEq, Repr

/-- State of one `ExecutionPlan` together with the heap of handler objects:
`handlers` is the `_handlers` array (identities in order), `next` gives the
current `_next` reference of every handler object. -/
@[ext]
structure PlanState where
  handlers : List Nat
  next : Nat → Option Nat

/-- Heap update: assign the `_next` reference of handler `k`. -/
def setNext (m : Nat → Option Nat) (k : Nat) (v : Option Nat) : Nat → Option Nat :=
  fun x => if x = k then v else m x

/-- First re-linking statement of `insertHandlerAt` (source lines 180-182):
`if (index > 0) this._handlers[index - 1].nextHandler = handler;`. -/
def insertPredMap (s : PlanState) (index : Int) (handler : Nat) : Nat → Option Nat :=
  if 0 < index then
    match s.handlers[index.toNat - 1]? with
    | some p => setNext s.next p (some handler)
    | none => s.next
  else s.next

/-- Both re-linking statements of `insertHandlerAt` (source lines 180-186):
after the predecessor assignment, `if (index < this._handlers.length)
handler.nextHandler = this._handlers[index + 1];`.  Reading past the end of
the array yields `undefined` in the source, embedded by the partial lookup
`l[i]?`. -/
def insertNextMap (s : PlanState) (index : Int) (handler : Nat) : Nat → Option Nat :=
  if index < (s.handlers.length : Int) then
    setNext (insertPredMap s index handler) handler s.handlers[index.toNat + 1]?
  else insertPredMap s index handler

/-- Embedding of `ExecutionPlan.insertHandlerAt` (source lines 164-189):
index bound check, null check, duplicate-membership check, the two re-linking
assignments, then `splice(index, 0, handler)`. -/
def insertHandlerAt (s : PlanState) (index : Int) (harg : Option Nat) :
    PlanState × Option Err :=
  if index < 0 ∨ (s.handlers.length : Int) < index then (s, some Err.indexNotExist)
  else
    match harg with
    | none => (s, some Err.handlerNullOrUndefined)
    | some handler =>
      if handler ∈ s.handlers then (s, some Err.duplicateHandler)
      else
        ({ handlers := List.insertIdx index.toNat handler s.handlers,
           next := insertNextMap s index handler }, none)

/-- Embedding of `ExecutionPlan.appendHandler` (source lines 87-93): null
check, then `insertHandlerAt(this._handlers.length, handler)`. -/
def appendHandler (s : PlanState) (harg : Option Nat) : PlanState × Option Err :=
  match harg with
  | none => (s, some Err.handlerNullOrUndefined)
  | some handler => insertHandlerAt s (s.handlers.length : Int) (some handler)

/-- Embedding of `ExecutionPlan.prependHandler` (source lines 99-105): null
check, then `insertHandlerAt(0, handler)`. -/
def prependHandler (s : PlanState) (harg : Option Nat) : PlanState × Option Err :=
  match harg with
  | none => (s, some Err.handlerNullOrUndefined)
  | some handler => insertHandlerAt s 0 (some handler)

/-- Embedding of `ExecutionPlan.addHandlerAfter` (source lines 112-131): null
check on the existing handler, null check on the new handler, membership check
via `indexOf`, then `insertHandlerAt(index + 1, newHandler)`. -/
def addHandlerAfter (s : PlanState) (harg narg : Option Nat) : PlanState × Option Err :=
  match harg with
  | none => (s, some Err.handlerNullOrUndefined)
  | some handler =>
    match narg with
    | none => (s, some Err.newHandlerNullOrUndefined)
    | some newHandler =>
      if handler ∈ s.handlers then
        insertHandlerAt s ((s.handlers.indexOf handler : Nat) + 1 : Int) (some newHandler)
      else (s, some Err.handlerNotExist)

/-- Embedding of `ExecutionPlan.addHandlerBefore` (source lines 138-157): same
checks as `addHandlerAfter`, then `insertHandlerAt(index, newHandler)`. -/
def addHandlerBefore (s : PlanState) (harg narg : Option Nat) : PlanState × Option Err :=
  match harg with
  | none => (s, some Err.handlerNullOrUndefined)
  | some handler =>
    match narg with
    | none => (s, some Err.newHandlerNullOrUndefined)
    | some newHandler =>
      if handler ∈ s.handlers then
        insertHandlerAt s ((s.handlers.indexOf handler : Nat) : Int) (some newHandler)
      else (s, some Err.handlerNotExist)

/-- Embedding of `ExecutionPlan.removeHandlerAt` (source lines 61-67): bound
check, then `splice(index, 1)`.  The heap of `_next` references is untouched. -/
def removeHandlerAt (s : PlanState) (index : Int) : PlanState × Option Err :=
  if index < 0 ∨ (s.handlers.length : Int) ≤ index then (s, some Err.indexNotExist)
  else ({ handlers := s.handlers.eraseIdx index.toNat, next := s.next }, none)

/-- Embedding of `ExecutionPlan.removeHandler` (source lines 73-81):
`indexOf`, not-found check, then `splice(index, 1)`.  An absent argument is
never found by `indexOf`, hence also rejected as not found. -/
def removeHandler (s : PlanState) (harg : Option Nat) : PlanState × Option Err :=
  match harg with
  | none => (s, some Err.handlerNotExist)
  | some handler =>
    if handler ∈ s.handlers then
      ({ handlers := s.handlers.eraseIdx (s.handlers.indexOf handler), next := s.next }, none)
    else (s, some Err.handlerNotExist)

/-- Embedding of `ExecutionPlan.clearHandlers` (source lines 194-196): the
sequence is reset to empty; the heap of `_next` references is untouched. -/
def clearHandlers (s : PlanState) : PlanState × Option Err :=
  ({ handlers := [], next := s.next }, none)

/-- Membership of an element read by a partial lookup. -/
theorem mem_of_lookup {l : List Nat} {i a : Nat} (h : l[i]? = some a) : a ∈ l := by
  obtain ⟨hl, he⟩ := List.getElem?_eq_some.mp h
  exact he ▸ List.getElem_mem hl

/-- A successful insertion: with the index in range, the handler present and
not a duplicate, `insertHandlerAt` throws nothing and produces the spliced
sequence together with the re-linked heap. -/
theorem insertHandlerAt_ok (s : PlanState) (index : Int) (h : Nat)
    (hlo : 0 ≤ index) (hhi : index ≤ (s.handlers.length : Int)) (hmem : h ∉ s.handlers) :
    insertHandlerAt s index (some h) =
      ({ handlers := List.insertIdx index.toNat h s.handlers,
         next := insertNextMap s index h }, none) := by
  have hcond : ¬(index < 0 ∨ (s.handlers.length : Int) < index) := by omega
  simp only [insertHandlerAt, if_neg hcond, if_neg hmem]

/-- The predecessor re-link touches only handlers of the sequence: any handler
outside the sequence keeps its prior reference. -/
theorem insertPredMap_not_mem (s : PlanState) (index : Int) (h : Nat) {x : Nat}
    (hx : x ∉ s.handlers) : insertPredMap s index h x = s.next x := by
  unfold insertPredMap
  split
  · cases hp : s.handlers[index.toNat - 1]? with
    | some p =>
      have hpx : x ≠ p := fun e => hx (e ▸ mem_of_lookup hp)
      simp [hp, setNext, hpx]
    | none => simp [hp]
  · rfl

/-- For a non-tail insertion the inserted handler receives the pre-insertion
element at position `index + 1` as its reference. -/
theorem insertNextMap_self (s : PlanState) (index : Int) (h : Nat)
    (hhi : index < (s.handlers.length : Int)) :
    insertNextMap s index h h = s.handlers[index.toNat + 1]? := by
  simp [insertNextMap, if_pos hhi, setNext]

/-- For a tail insertion the inserted handler keeps its prior reference. -/
theorem insertNextMap_self_tail (s : PlanState) (index : Int) (h : Nat)
    (hhi : ¬index < (s.handlers.length : Int)) (hmem : h ∉ s.handlers) :
    insertNextMap s index h h = s.next h := by
  simp only [insertNextMap, if_neg hhi]
  exact insertPredMap_not_mem s index h hmem

/-- With a positive index the pre-insertion element at position `index - 1`
is re-pointed at the inserted handler. -/
theorem insertNextMap_pred (s : PlanState) (index : Int) (h : Nat) {p : Nat}
    (hpos : 0 < index) (hp : s.handlers[index.toNat - 1]? = some p)
    (hmem : h ∉ s.handlers) : insertNextMap s index h p = some h := by
  have hpm : p ∈ s.handlers := mem_of_lookup hp
  have hph : p ≠ h := fun e => hmem (e ▸ hpm)
  have hpred : insertPredMap s index h p = some h := by
    simp [insertPredMap, if_pos hpos, hp, setNext]
  unfold insertNextMap
  split
  · simp [setNext, hph, hpred]
  · exact hpred

/-- C1.  The claim says the inserted handler is pointed at the pre-insertion
element at position `index`.  The source (line 185) points it at the
pre-insertion element at position `index + 1` instead, and the repository
test suite pins exactly that behavior.  Amended: for `0 ≤ index < N` and a
fresh handler, the call succeeds, the inserted handler receives the
pre-insertion element at position `index + 1` (absent when `index + 1 = N`),
and for `index > 0` the pre-insertion element at position `index - 1` is
re-pointed at the inserted handler. -/
theorem C1_insert_successor_link (s : PlanState) (index : Int) (h : Nat)
    (hlo : 0 ≤ index) (hhi : index < (s.handlers.length : Int)) (hmem : h ∉ s.handlers) :
    (insertHandlerAt s index (some h)).2 = none ∧
    (insertHandlerAt s index (some h)).1.next h = s.handlers[index.toNat + 1]? ∧
    (0 < index → ∀ p, s.handlers[index.toNat - 1]? = some p →
      (insertHandlerAt s index (some h)).1.next p = some h) := by
  rw [insertHandlerAt_ok s index h hlo (le_of_lt hhi) hmem]
  refine ⟨rfl, insertNextMap_self s index h hhi, ?_⟩
  intro hpos p hp
  exact insertNextMap_pred s index h hpos hp hmem

/-- C1, witness at a concrete input: plan `[0, 1]` with `0` linked to `1`,
inserting handler `7` at index `1`. -/
theorem C1_insert_successor_link_witness :
    (0 : Int) ≤ 1 ∧
    (1 : Int) < ((PlanState.mk [0, 1] (fun n => if n = 0 then some 1 else none)).handlers.length : Int) ∧
    (7 : Nat) ∉ (PlanState.mk [0, 1] (fun n => if n = 0 then some 1 else none)).handlers ∧
    ((insertHandlerAt (PlanState.mk [0, 1] (fun n => if n = 0 then some 1 else none)) 1 (some 7)).2 = none ∧
     (insertHandlerAt (PlanState.mk [0, 1] (fun n => if n = 0 then some 1 else none)) 1 (some 7)).1.next 7 =
       (PlanState.mk [0, 1] (fun n => if n = 0 then some 1 else none)).handlers[(1 : Int).toNat + 1]? ∧
     ((0 : Int) < 1 → ∀ p,
       (PlanState.mk [0, 1] (fun n => if n = 0 then some 1 else none)).handlers[(1 : Int).toNat - 1]? = some p →
       (insertHandlerAt (PlanState.mk [0, 1] (fun n => if n = 0 then some 1 else none)) 1 (some 7)).1.next p = some 7)) :=
  ⟨by decide, by decide, by decide,
    C1_insert_successor_link (PlanState.mk [0, 1] (fun n => if n = 0 then some 1 else none)) 1 7
      (by decide) (by decide) (by decide)⟩

/-- C1, counterexample: plan `[0, 1]` with `0` linked to `1`.  Inserting
handler `2` at index `0` must, per the claim, point `2` at the pre-insertion
element of position `0`, namely handler `0`.  The source points `2` at
handler `1`. -/
theorem C1_counterexample :
    (insertHandlerAt (PlanState.mk [0, 1] (fun n => if n = 0 then some 1 else none)) 0 (some 2)).1.next 2
      = some 1 ∧
    (insertHandlerAt (PlanState.mk [0, 1] (fun n => if n = 0 then some 1 else none)) 0 (some 2)).1.next 2
      ≠ some 0 := by
  constructor
  · decide
  · decide

/-- C2.  The claim says a successful insertion establishes the adjacency
invariant at both sides of the inserted handler.  The source establishes only
the predecessor side: the inserted handler is pointed at the pre-insertion
element of position `index + 1` (the post-insertion position `index + 2`),
skipping its actual successor, and keeps its prior reference for a tail
insertion.  Amended: for `0 ≤ index ≤ N` and a fresh handler the call
succeeds, `handlerCount` grows by exactly 1, the pre-insertion element at
position `index - 1` (the post-insertion predecessor, when `index > 0`) is
pointed at the inserted handler, and the inserted handler ends pointed at the
pre-insertion element of position `index + 1` when `index < N`, its reference
untouched when `index = N`. -/
theorem C2_insert_count_and_links (s : PlanState) (index : Int) (h : Nat)
    (hlo : 0 ≤ index) (hhi : index ≤ (s.handlers.length : Int)) (hmem : h ∉ s.handlers) :
    (insertHandlerAt s index (some h)).2 = none ∧
    (insertHandlerAt s index (some h)).1.handlers.length = s.handlers.length + 1 ∧
    (0 < index → ∀ p, s.handlers[index.toNat - 1]? = some p →
      (insertHandlerAt s index (some h)).1.next p = some h) ∧
    (index < (s.handlers.length : Int) →
      (insertHandlerAt s index (some h)).1.next h = s.handlers[index.toNat + 1]?) ∧
    (¬index < (s.handlers.length : Int) →
      (insertHandlerAt s index (some h)).1.next h = s.next h) := by
  rw [insertHandlerAt_ok s index h hlo hhi hmem]
  refine ⟨rfl, ?_, ?_, ?_, ?_⟩
  · exact List.length_insertIdx index.toNat s.handlers (by omega)
  · intro hpos p hp
    exact insertNextMap_pred s index h hpos hp hmem
  · intro hlt
    exact insertNextMap_self s index h hlt
  · intro hge
    exact insertNextMap_self_tail s index h hge hmem

/-- C2, witness at a concrete input: plan `[5]` with no links, inserting
handler `3` at index `1` (tail position). -/
theorem C2_insert_count_and_links_witness :
    (0 : Int) ≤ 1 ∧
    (1 : Int) ≤ ((PlanState.mk [5] (fun _ => none)).handlers.length : Int) ∧
    (3 : Nat) ∉ (PlanState.mk [5] (fun _ => none)).handlers ∧
    ((insertHandlerAt (PlanState.mk [5] (fun _ => none)) 1 (some 3)).2 = none ∧
     (insertHandlerAt (PlanState.mk [5] (fun _ => none)) 1 (some 3)).1.handlers.length =
       (PlanState.mk [5] (fun _ => none)).handlers.length + 1 ∧
     ((0 : Int) < 1 → ∀ p,
       (PlanState.mk [5] (fun _ => none)).handlers[(1 : Int).toNat - 1]? = some p →
       (insertHandlerAt (PlanState.mk [5] (fun _ => none)) 1 (some 3)).1.next p = some 3) ∧
     ((1 : Int) < ((PlanState.mk [5] (fun _ => none)).handlers.length : Int) →
       (insertHandlerAt (PlanState.mk [5] (fun _ => none)) 1 (some 3)).1.next 3 =
         (PlanState.mk [5] (fun _ => none)).handlers[(1 : Int).toNat + 1]?) ∧
     (¬(1 : Int) < ((PlanState.mk [5] (fun _ => none)).handlers.length : Int) →
       (insertHandlerAt (PlanState.mk [5] (fun _ => none)) 1 (some 3)).1.next 3 =
         (PlanState.mk [5] (fun _ => none)).next 3)) :=
  ⟨by decide, by decide, by decide,
    C2_insert_count_and_links (PlanState.mk [5] (fun _ => none)) 1 3
      (by decide) (by decide) (by decide)⟩

/-- C2, counterexample: plan `[0]` with no links.  Inserting handler `1` at
index `0` must, per the claim, point `1` at the handler that ends at position
`1`, namely handler `0`.  The source leaves the reference of `1` absent. -/
theorem C2_counterexample :
    (insertHandlerAt (PlanState.mk [0] (fun _ => none)) 0 (some 1)).1.handlers = [1, 0] ∧
    (insertHandlerAt (PlanState.mk [0] (fun _ => none)) 0 (some 1)).1.next 1 = none ∧
    (insertHandlerAt (PlanState.mk [0] (fun _ => none)) 0 (some 1)).1.next 1 ≠ some 0 := by
  refine ⟨by decide, by decide, by decide⟩

/-- A rejected `insertHandlerAt` call changes nothing: every throw of the
source method happens before the first mutating statement. -/
theorem insertHandlerAt_frame (s : PlanState) (index : Int) (harg : Option Nat) (e : Err)
    (he : (insertHandlerAt s index harg).2 = some e) : (insertHandlerAt s index harg).1 = s := by
  by_cases hc : index < 0 ∨ (s.handlers.length : Int) < index
  · simp [insertHandlerAt, hc]
  · cases harg with
    | none => simp [insertHandlerAt, hc]
    | some h =>
      by_cases hm : h ∈ s.handlers
      · simp [insertHandlerAt, hc, hm]
      · simp [insertHandlerAt, hc, hm] at he

/-- A duplicate member makes `insertHandlerAt` throw for every index. -/
theorem insertHandlerAt_dup_fails (s : PlanState) (index : Int) (h : Nat)
    (hm : h ∈ s.handlers) : (insertHandlerAt s index (some h)).2.isSome := by
  by_cases hc : index < 0 ∨ (s.handlers.length : Int) < index
  · simp [insertHandlerAt, hc]
  · simp [insertHandlerAt, hc, hm]

/-- A duplicate member together with an in-range index produces precisely the
duplicate-membership error, and the unchanged state. -/
theorem insertHandlerAt_dup (s : PlanState) (index : Int) (h : Nat) (hm : h ∈ s.handlers)
    (hlo : 0 ≤ index) (hhi : index ≤ (s.handlers.length : Int)) :
    insertHandlerAt s index (some h) = (s, some Err.duplicateHandler) := by
  have hc : ¬(index < 0 ∨ (s.handlers.length : Int) < index) := by omega
  simp [insertHandlerAt, hc, hm]

/-- C3.  Inserting an already-present handler is always rejected — with the
duplicate-membership error whenever it is the duplicate check that fires
(direct in-range insertion, appends and prepends, and the positional adds
with a member anchor) — and a rejected structural mutation call of any kind
returns with the sequence and every reference of the heap exactly as before,
because every throw precedes the first mutating statement. -/
theorem C3_duplicate_and_atomicity :
    (∀ (s : PlanState) (index : Int) (h : Nat), h ∈ s.handlers →
      ((insertHandlerAt s index (some h)).2.isSome)) ∧
    (∀ (s : PlanState) (index : Int) (h : Nat), h ∈ s.handlers →
      0 ≤ index → index ≤ (s.handlers.length : Int) →
      insertHandlerAt s index (some h) = (s, some Err.duplicateHandler)) ∧
    (∀ (s : PlanState) (h : Nat), h ∈ s.handlers →
      appendHandler s (some h) = (s, some Err.duplicateHandler)) ∧
    (∀ (s : PlanState) (h : Nat), h ∈ s.handlers →
      prependHandler s (some h) = (s, some Err.duplicateHandler)) ∧
    (∀ (s : PlanState) (a n : Nat), a ∈ s.handlers → n ∈ s.handlers →
      addHandlerAfter s (some a) (some n) = (s, some Err.duplicateHandler)) ∧
    (∀ (s : PlanState) (a n : Nat), a ∈ s.handlers → n ∈ s.handlers →
      addHandlerBefore s (some a) (some n) = (s, some Err.duplicateHandler)) ∧
    (∀ (s : PlanState) (aarg : Option Nat) (n : Nat), n ∈ s.handlers →
      ((addHandlerAfter s aarg (some n)).2.isSome)) ∧
    (∀ (s : PlanState) (aarg : Option Nat) (n : Nat), n ∈ s.handlers →
      ((addHandlerBefore s aarg (some n)).2.isSome)) ∧
    (∀ (s : PlanState) (index : Int) (harg : Option Nat) (e : Err),
      (insertHandlerAt s index harg).2 = some e → (insertHandlerAt s index harg).1 = s) ∧
    (∀ (s : PlanState) (harg : Option Nat) (e : Err),
      (appendHandler s harg).2 = some e → (appendHandler s harg).1 = s) ∧
    (∀ (s : PlanState) (harg : Option Nat) (e : Err),
      (prependHandler s harg).2 = some e → (prependHandler s harg).1 = s) ∧
    (∀ (s : PlanState) (harg narg : Option Nat) (e : Err),
      (addHandlerAfter s harg narg).2 = some e → (addHandlerAfter s harg narg).1 = s) ∧
    (∀ (s : PlanState) (harg narg : Option Nat) (e : Err),
      (addHandlerBefore s harg narg).2 = some e → (addHandlerBefore s harg narg).1 = s) ∧
    (∀ (s : PlanState) (index : Int) (e : Err),
      (removeHandlerAt s index).2 = some e → (removeHandlerAt s index).1 = s) ∧
    (∀ (s : PlanState) (harg : Option Nat) (e : Err),
      (removeHandler s harg).2 = some e → (removeHandler s harg).1 = s) := by
  have hafter : ∀ (s : PlanState) (a n : Nat), a ∈ s.handlers → n ∈ s.handlers →
      addHandlerAfter s (some a) (some n) = (s, some Err.duplicateHandler) := by
    intro s a n ha hn
    have hia : s.handlers.indexOf a < s.handlers.length := List.indexOf_lt_length.mpr ha
    simp only [addHandlerAfter, if_pos ha]
    exact insertHandlerAt_dup s _ n hn (by omega) (by omega)
  have hbefore : ∀ (s : PlanState) (a n : Nat), a ∈ s.handlers → n ∈ s.handlers →
      addHandlerBefore s (some a) (some n) = (s, some Err.duplicateHandler) := by
    intro s a n ha hn
    have hia : s.handlers.indexOf a < s.handlers.length := List.indexOf_lt_length.mpr ha
    simp only [addHandlerBefore, if_pos ha]
    exact insertHandlerAt_dup s _ n hn (by omega) (by omega)
  refine ⟨insertHandlerAt_dup_fails, ?_, ?_, ?_, hafter, hbefore, ?_, ?_,
    insertHandlerAt_frame, ?_, ?_, ?_, ?_, ?_, ?_⟩
  · intro s index h hm hlo hhi
    exact insertHandlerAt_dup s index h hm hlo hhi
  · intro s h hm
    exact insertHandlerAt_dup s _ h hm (by positivity) (by omega)
  · intro s h hm
    exact insertHandlerAt_dup s 0 h hm le_rfl (by positivity)
  · intro s aarg n hn
    cases aarg with
    | none => simp [addHandlerAfter]
    | some a =>
      by_cases ha : a ∈ s.handlers
      · rw [hafter s a n ha hn]; rfl
      · simp [addHandlerAfter, ha]
  · intro s aarg n hn
    cases aarg with
    | none => simp [addHandlerBefore]
    | some a =>
      by_cases ha : a ∈ s.handlers
      · rw [hbefore s a n ha hn]; rfl
      · simp [addHandlerBefore, ha]
  · intro s harg e he
    cases harg with
    | none => rfl
    | some h => exact insertHandlerAt_frame s _ (some h) e he
  · intro s harg e he
    cases harg with
    | none => rfl
    | some h => exact insertHandlerAt_frame s 0 (some h) e he
  · intro s harg narg e he
    cases harg with
    | none => rfl
    | some a =>
      cases narg with
      | none => rfl
      | some n =>
        by_cases ha : a ∈ s.handlers
        · simp only [addHandlerAfter, if_pos ha] at he ⊢
          exact insertHandlerAt_frame s _ (some n) e he
        · simp [addHandlerAfter, ha]
  · intro s harg narg e he
    cases harg with
    | none => rfl
    | some a =>
      cases narg with
      | none => rfl
      | some n =>
        by_cases ha : a ∈ s.handlers
        · simp only [addHandlerBefore, if_pos ha] at he ⊢
          exact insertHandlerAt_frame s _ (some n) e he
        · simp [addHandlerBefore, ha]
  · intro s index e he
    by_cases hc : index < 0 ∨ (s.handlers.length : Int) ≤ index
    · simp [removeHandlerAt, hc]
    · simp [removeHandlerAt, hc] at he
  · intro s harg e he
    cases harg with
    | none => rfl
    | some h =>
      by_cases hm : h ∈ s.handlers
      · simp [removeHandler, hm] at he
      · simp [removeHandler, hm]

/-- C3, witness at a concrete input: plan `[4]`, re-inserting the member
handler `4` at index `0`, and a rejected out-of-range removal. -/
theorem C3_duplicate_and_atomicity_witness :
    (4 : Nat) ∈ (PlanState.mk [4] (fun _ => none)).handlers ∧
    insertHandlerAt (PlanState.mk [4] (fun _ => none)) 0 (some 4) =
      (PlanState.mk [4] (fun _ => none), some Err.duplicateHandler) ∧
    (removeHandlerAt (PlanState.mk [4] (fun _ => none)) 9).2 = some Err.indexNotExist ∧
    (removeHandlerAt (PlanState.mk [4] (fun _ => none)) 9).1 = PlanState.mk [4] (fun _ => none) :=
  ⟨by decide,
   C3_duplicate_and_atomicity.2.1 (PlanState.mk [4] (fun _ => none)) 0 4
     (by decide) (by decide) (by decide),
   by decide,
   (C3_duplicate_and_atomicity.2.2.2.2.2.2.2.2.2.2.2.2.2.1)
     (PlanState.mk [4] (fun _ => none)) 9 Err.indexNotExist (by decide)⟩

/-- C4.  `appendHandler` returns exactly what `insertHandlerAt` at index
`handlerCount` returns, and `prependHandler` exactly what `insertHandlerAt`
at index `0` returns, for every plan state and every argument including an
absent one: the null check duplicated in the wrappers produces the identical
error the delegate itself would produce, since the wrapper indices are always
in range. -/
theorem C4_append_prepend_refine (s : PlanState) (harg : Option Nat) :
    appendHandler s harg = insertHandlerAt s (s.handlers.length : Int) harg ∧
    prependHandler s harg = insertHandlerAt s 0 harg := by
  cases harg with
  | some h => exact ⟨rfl, rfl⟩
  | none =>
    constructor
    · have h1 : ¬((s.handlers.length : Int) < 0) := by omega
      have h2 : ¬((s.handlers.length : Int) < (s.handlers.length : Int)) := by omega
      simp [appendHandler, insertHandlerAt, h1, h2]
    · have h1 : ¬((0 : Int) < 0) := by omega
      have h2 : ¬((s.handlers.length : Int) < 0) := by omega
      simp [prependHandler, insertHandlerAt, h1, h2]

/-- The context argument of `PipelineHandler.invoke` and `invokeAsync`.  The
source check is `context === undefined`, which lets `null` through, so the
embedding keeps the three cases apart. -/
inductive CtxRef where
  | isDefined
  | jsNull
  | jsUndefined
deriving DecidableEq, Repr

/-- Embedding of the base `PipelineHandler.invoke` (source lines 137-143)
along a chain of base handlers: throw if the context is `undefined`, then
`this._next?.invoke(context)`.  Returned value: the ordered list of handlers
whose `invoke` ran to completion.  The outer `Option` is recursion fuel:
`none` means the chain did not finish within `fuel` calls. -/
def invoke (next : Nat → Option Nat) : Nat → Nat → CtxRef → Option (Except Err (List Nat))
  | 0, _, _ => none
  | fuel + 1, h, ctx =>
    if ctx = CtxRef.jsUndefined then some (Except.error Err.contextUndefined)
    else
      match next h with
      | none => some (Except.ok [h])
      | some h2 => (invoke next fuel h2 ctx).map (fun r => r.map (fun tr => h :: tr))

/-- Embedding of the base `PipelineHandler.invokeAsync` (source lines
150-156): the same checks and forwarding, with the call of the successor
awaited; the chain is strictly sequential, so the embedding is structurally
the one of `invoke`. -/
def invokeAsync (next : Nat → Option Nat) : Nat → Nat → CtxRef → Option (Except Err (List Nat))
  | 0, _, _ => none
  | fuel + 1, h, ctx =>
    if ctx = CtxRef.jsUndefined then some (Except.error Err.contextUndefined)
    else
      match next h with
      | none => some (Except.ok [h])
      | some h2 => (invokeAsync next fuel h2 ctx).map (fun r => r.map (fun tr => h :: tr))

/-- Embedding of `ExecutionContext` at type `String`: `input` is fixed at
construction, `output` starts uninitialized (`none` models the JavaScript
`undefined` of a field never assigned). -/
structure CtxS where
  input : String
  output : Option String
deriving DecidableEq, Repr

/-- One chain step of concrete handlers in the style of the repository test
suite: a subclass `invoke(context)` performs its own work on the context and
then calls the base `invoke`, which (the context being defined) forwards to
the `_next` handler, dispatching to that handler in turn.  `work h` is the
work of the concrete handler `h`; the returned trace lists the handlers
invoked, in order. -/
def invokeWork (work : Nat → CtxS → CtxS) (next : Nat → Option Nat) :
    Nat → Nat → CtxS → Option (CtxS × List Nat)
  | 0, _, _ => none
  | fuel + 1, h, c =>
    match next h with
    | none => some (work h c, [h])
    | some h2 => (invokeWork work next fuel h2 (work h c)).map (fun r => (r.1, h :: r.2))

/-- Asynchronous twin of `invokeWork`, embedding the awaited forwarding of
`invokeAsync`-overriding handlers; the chain is strictly sequential. -/
def invokeWorkAsync (work : Nat → CtxS → CtxS) (next : Nat → Option Nat) :
    Nat → Nat → CtxS → Option (CtxS × List Nat)
  | 0, _, _ => none
  | fuel + 1, h, c =>
    match next h with
    | none => some (work h c, [h])
    | some h2 => (invokeWorkAsync work next fuel h2 (work h c)).map (fun r => (r.1, h :: r.2))

/-- Embedding of `ExecutionPlan.execute` (source lines 204-214): throw if the
sequence is empty, construct a fresh context from the input, invoke the first
handler on it, return the output field of that same context.  The trace of
invoked handlers is kept alongside the returned output. -/
def executeTr (work : Nat → CtxS → CtxS) (fuel : Nat) (s : PlanState) (input : String) :
    Option (Except Err (Option String × List Nat)) :=
  match s.handlers with
  | [] => some (Except.error Err.pipelineEmpty)
  | h :: _ =>
    (invokeWork work s.next fuel h { input := input, output := none }).map
      (fun r => Except.ok (r.1.output, r.2))

/-- Embedding of `ExecutionPlan.executeAsync` (source lines 222-232): the
same emptiness check and fresh context, with the first handler invoked along
the asynchronous path and the output read after the chain resolves. -/
def executeAsyncTr (work : Nat → CtxS → CtxS) (fuel : Nat) (s : PlanState) (input : String) :
    Option (Except Err (Option String × List Nat)) :=
  match s.handlers with
  | [] => some (Except.error Err.pipelineEmpty)
  | h :: _ =>
    (invokeWorkAsync work s.next fuel h { input := input, output := none }).map
      (fun r => Except.ok (r.1.output, r.2))

/-- Work of the first round-trip test handler: `output = input + "!"`. -/
def workBang (c : CtxS) : CtxS :=
  { input := c.input, output := some (c.input ++ "!") }

/-- Work of the second round-trip test handler: `output = input + "?"`. -/
def workQuestion (c : CtxS) : CtxS :=
  { input := c.input, output := some (c.input ++ "?") }

/-- C5.  The claim says a non-member anchor makes `addHandlerAfter` fail with
the not-found error regardless of the new handler, including an absent one.
The source (lines 116-122) null-checks the new handler before the membership
lookup, so an absent new handler produces the null-argument error instead.
Amended: with a defined new handler — member or not — a non-member anchor
fails with not-found; with an absent new handler the call fails with the
null-new-handler error, whatever the anchor. -/
theorem C5_after_not_found (s : PlanState) (a n : Nat) (ha : a ∉ s.handlers) :
    addHandlerAfter s (some a) (some n) = (s, some Err.handlerNotExist) ∧
    (∀ a2 : Nat, addHandlerAfter s (some a2) none = (s, some Err.newHandlerNullOrUndefined)) := by
  constructor
  · simp [addHandlerAfter, ha]
  · intro a2
    rfl

/-- C5, witness at a concrete input: empty plan, anchor handler `0`, new
handler `6`. -/
theorem C5_after_not_found_witness :
    (0 : Nat) ∉ (PlanState.mk [] (fun _ => none)).handlers ∧
    (addHandlerAfter (PlanState.mk [] (fun _ => none)) (some 0) (some 6) =
      (PlanState.mk [] (fun _ => none), some Err.handlerNotExist) ∧
     (∀ a2 : Nat, addHandlerAfter (PlanState.mk [] (fun _ => none)) (some a2) none =
       (PlanState.mk [] (fun _ => none), some Err.newHandlerNullOrUndefined))) :=
  ⟨by decide, C5_after_not_found (PlanState.mk [] (fun _ => none)) 0 6 (by decide)⟩

/-- C5, counterexample: empty plan, anchor handler `0` (not a member), new
handler absent.  The claim demands the not-found error; the source throws the
null-new-handler error. -/
theorem C5_counterexample :
    (addHandlerAfter (PlanState.mk [] (fun _ => none)) (some 0) none).2 =
      some Err.newHandlerNullOrUndefined ∧
    (addHandlerAfter (PlanState.mk [] (fun _ => none)) (some 0) none).2 ≠
      some Err.handlerNotExist := by
  refine ⟨by decide, by decide⟩

/-- C6.  A plan built by appending handler `a` (work: `output = input + "!"`,
then forward) and handler `b` (work: `output = input + "?"`, then forward),
executed on `"Hello"`, returns `"Hello?"` — handler `b` reads the fixed
`input`, not the output of `a`, and overwrites `output` last — and the trace
of invoked handlers is exactly `[a, b]`: each invoked once, `a` before `b`.
The hypothesis on the prior reference of `b` reflects a handler constructed
standalone, and the reference of `a` is established by the second append. -/
theorem C6_round_trip (a b : Nat) (work : Nat → CtxS → CtxS) (nx : Nat → Option Nat)
    (hab : a ≠ b) (hwa : work a = workBang) (hwb : work b = workQuestion)
    (hnb : nx b = none) :
    (appendHandler (PlanState.mk [] nx) (some a)).2 = none ∧
    (appendHandler (appendHandler (PlanState.mk [] nx) (some a)).1 (some b)).2 = none ∧
    executeTr work 2 (appendHandler (appendHandler (PlanState.mk [] nx) (some a)).1 (some b)).1
        "Hello" = some (Except.ok (some "Hello?", [a, b])) ∧
    executeAsyncTr work 2
        (appendHandler (appendHandler (PlanState.mk [] nx) (some a)).1 (some b)).1
        "Hello" = some (Except.ok (some "Hello?", [a, b])) ∧
    List.Nodup [a, b] := by
  have h1 : appendHandler (PlanState.mk [] nx) (some a) = (PlanState.mk [a] nx, none) := by
    have hma : a ∉ (PlanState.mk [] nx).handlers := List.not_mem_nil a
    rw [show appendHandler (PlanState.mk [] nx) (some a) =
        insertHandlerAt (PlanState.mk [] nx) 0 (some a) from rfl,
      insertHandlerAt_ok _ 0 a (by omega) (by simp) hma]
    refine Prod.ext ?_ rfl
    refine PlanState.ext rfl ?_
    funext x
    simp [insertNextMap, insertPredMap]
  have h2 : appendHandler (PlanState.mk [a] nx) (some b) =
      (PlanState.mk [a, b] (setNext nx a (some b)), none) := by
    have hmb : b ∉ (PlanState.mk [a] nx).handlers := by
      simp [PlanState.mk]
      exact fun e => hab e.symm
    rw [show appendHandler (PlanState.mk [a] nx) (some b) =
        insertHandlerAt (PlanState.mk [a] nx) 1 (some b) from rfl,
      insertHandlerAt_ok _ 1 b (by omega) (by simp) hmb]
    refine Prod.ext ?_ rfl
    refine PlanState.ext rfl ?_
    funext x
    simp [insertNextMap, insertPredMap, setNext]
  rw [h1]
  rw [h2]
  have hrun : invokeWork work (setNext nx a (some b)) 2 a (CtxS.mk "Hello" none) =
      some (CtxS.mk "Hello" (some "Hello?"), [a, b]) := by
    have hna : setNext nx a (some b) a = some b := by simp [setNext]
    have hnb2 : setNext nx a (some b) b = none := by simp [setNext, hab.symm, hnb]
    simp [invokeWork, hna, hnb2, hwa, hwb, workBang, workQuestion]
  refine ⟨rfl, rfl, ?_, ?_, by simp [hab]⟩
  · simp [executeTr, hrun]
  · have hruna : invokeWorkAsync work (setNext nx a (some b)) 2 a (CtxS.mk "Hello" none) =
        some (CtxS.mk "Hello" (some "Hello?"), [a, b]) := by
      have hna : setNext nx a (some b) a = some b := by simp [setNext]
      have hnb2 : setNext nx a (some b) b = none := by simp [setNext, hab.symm, hnb]
      simp [invokeWorkAsync, hna, hnb2, hwa, hwb, workBang, workQuestion]
    simp [executeAsyncTr, hruna]

/-- C6, witness at a concrete input: handlers `0` and `1`, fresh heap. -/
theorem C6_round_trip_witness :
    (0 : Nat) ≠ 1 ∧
    (fun n => if n = 0 then workBang else workQuestion) 0 = workBang ∧
    (fun n => if n = 0 then workBang else workQuestion) 1 = workQuestion ∧
    (fun _ : Nat => (none : Option Nat)) 1 = none ∧
    ((appendHandler (PlanState.mk [] (fun _ => none)) (some 0)).2 = none ∧
     (appendHandler (appendHandler (PlanState.mk [] (fun _ => none)) (some 0)).1 (some 1)).2 =
       none ∧
     executeTr (fun n => if n = 0 then workBang else workQuestion) 2
         (appendHandler (appendHandler (PlanState.mk [] (fun _ => none)) (some 0)).1
           (some 1)).1 "Hello" = some (Except.ok (some "Hello?", [0, 1])) ∧
     executeAsyncTr (fun n => if n = 0 then workBang else workQuestion) 2
         (appendHandler (appendHandler (PlanState.mk [] (fun _ => none)) (some 0)).1
           (some 1)).1 "Hello" = some (Except.ok (some "Hello?", [0, 1])) ∧
     List.Nodup [0, 1]) :=
  ⟨by decide, rfl, rfl, rfl,
    C6_round_trip 0 1 (fun n => if n = 0 then workBang else workQuestion) (fun _ => none)
      (by decide) rfl rfl rfl⟩

/-- C7.  Execution of an empty plan fails with the empty-pipeline error, for
every input, along both the synchronous and the asynchronous path; execution
of a nonempty plan builds a fresh context holding the input with the output
uninitialized, invokes the invoke method of the first handler on it, and
returns the output field of that context once the call returns. -/
theorem C7_execute_empty_and_first (work : Nat → CtxS → CtxS) (fuel : Nat)
    (s : PlanState) (input : String) :
    (s.handlers = [] →
      executeTr work fuel s input = some (Except.error Err.pipelineEmpty) ∧
      executeAsyncTr work fuel s input = some (Except.error Err.pipelineEmpty)) ∧
    (∀ h t, s.handlers = h :: t →
      executeTr work fuel s input =
        (invokeWork work s.next fuel h (CtxS.mk input none)).map
          (fun r => Except.ok (r.1.output, r.2)) ∧
      executeAsyncTr work fuel s input =
        (invokeWorkAsync work s.next fuel h (CtxS.mk input none)).map
          (fun r => Except.ok (r.1.output, r.2))) := by
  constructor
  · intro hs
    constructor
    · simp [executeTr, hs]
    · simp [executeAsyncTr, hs]
  · intro h t hs
    constructor
    · simp [executeTr, hs]
    · simp [executeAsyncTr, hs]

/-- C7, witness at concrete inputs: the empty plan and the plan `[3]`. -/
theorem C7_execute_empty_and_first_witness :
    ((PlanState.mk [] (fun _ => none)).handlers = [] →
      executeTr (fun _ c => c) 1 (PlanState.mk [] (fun _ => none)) "x" =
        some (Except.error Err.pipelineEmpty) ∧
      executeAsyncTr (fun _ c => c) 1 (PlanState.mk [] (fun _ => none)) "x" =
        some (Except.error Err.pipelineEmpty)) ∧
    (∀ h t, (PlanState.mk [] (fun _ => none)).handlers = h :: t →
      executeTr (fun _ c => c) 1 (PlanState.mk [] (fun _ => none)) "x" =
        (invokeWork (fun _ c => c) (PlanState.mk [] (fun _ => none)).next 1 h
          (CtxS.mk "x" none)).map (fun r => Except.ok (r.1.output, r.2)) ∧
      executeAsyncTr (fun _ c => c) 1 (PlanState.mk [] (fun _ => none)) "x" =
        (invokeWorkAsync (fun _ c => c) (PlanState.mk [] (fun _ => none)).next 1 h
          (CtxS.mk "x" none)).map (fun r => Except.ok (r.1.output, r.2))) :=
  C7_execute_empty_and_first (fun _ c => c) 1 (PlanState.mk [] (fun _ => none)) "x"

/-- C8.  The claim says an absent context — null or undefined — always fails
with the invalid-argument error.  The source check (line 138) is
`context === undefined` only: a null context passes the check and the base
handler simply forwards, completing without error.  Amended: an undefined
context always fails with the invalid-argument error, on both paths and for
every handler including one with no successor; a null context is not caught
by the check. -/
theorem C8_undefined_context (next : Nat → Option Nat) (h fuel : Nat) :
    invoke next (fuel + 1) h CtxRef.jsUndefined = some (Except.error Err.contextUndefined) ∧
    invokeAsync next (fuel + 1) h CtxRef.jsUndefined =
      some (Except.error Err.contextUndefined) := by
  constructor
  · simp [invoke]
  · simp [invokeAsync]

/-- C8, counterexample: the base handler `0` with no successor, invoked with
a null context, completes without any error on both paths, where the claim
demands the invalid-argument failure. -/
theorem C8_counterexample :
    invoke (fun _ => none) 1 0 CtxRef.jsNull = some (Except.ok [0]) ∧
    invokeAsync (fun _ => none) 1 0 CtxRef.jsNull = some (Except.ok [0]) := by
  refine ⟨rfl, rfl⟩

/-- C9.  An in-range `removeHandlerAt`, a member `removeHandler` and
`clearHandlers` touch only the sequence of the plan: the heap of references
is returned exactly as it was; a successful removal shrinks `handlerCount` by
exactly 1 and keeps the remaining handlers in their relative order (the
result is a sublist of the previous sequence). -/
theorem C9_removal_frame :
    (∀ (s : PlanState) (index : Int), 0 ≤ index → index < (s.handlers.length : Int) →
      (removeHandlerAt s index).2 = none ∧
      (removeHandlerAt s index).1.next = s.next ∧
      (removeHandlerAt s index).1.handlers.length + 1 = s.handlers.length ∧
      List.Sublist (removeHandlerAt s index).1.handlers s.handlers) ∧
    (∀ (s : PlanState) (h : Nat), h ∈ s.handlers →
      (removeHandler s (some h)).2 = none ∧
      (removeHandler s (some h)).1.next = s.next ∧
      (removeHandler s (some h)).1.handlers.length + 1 = s.handlers.length ∧
      List.Sublist (removeHandler s (some h)).1.handlers s.handlers) ∧
    (∀ s : PlanState, clearHandlers s = (PlanState.mk [] s.next, none)) := by
  refine ⟨?_, ?_, fun s => rfl⟩
  · intro s index hlo hhi
    have hc : ¬(index < 0 ∨ (s.handlers.length : Int) ≤ index) := by omega
    have hti : index.toNat < s.handlers.length := by omega
    refine ⟨by simp [removeHandlerAt, hc], by simp [removeHandlerAt, hc], ?_, ?_⟩
    · simp only [removeHandlerAt, if_neg hc]
      rw [List.length_eraseIdx, if_pos hti]
      omega
    · simp only [removeHandlerAt, if_neg hc]
      exact List.eraseIdx_sublist s.handlers index.toNat
  · intro s h hm
    have hti : s.handlers.indexOf h < s.handlers.length := List.indexOf_lt_length.mpr hm
    refine ⟨by simp [removeHandler, hm], by simp [removeHandler, hm], ?_, ?_⟩
    · simp only [removeHandler, if_pos hm]
      rw [List.length_eraseIdx, if_pos hti]
      omega
    · simp only [removeHandler, if_pos hm]
      exact List.eraseIdx_sublist s.handlers (s.handlers.indexOf h)

/-- C9, witness at a concrete input: plan `[8, 9]` with `8` linked to `9`,
removing at index `0`, removing the member `9`, and clearing. -/
theorem C9_removal_frame_witness :
    (0 : Int) ≤ 0 ∧
    (0 : Int) < ((PlanState.mk [8, 9] (fun n => if n = 8 then some 9 else none)).handlers.length : Int) ∧
    ((removeHandlerAt (PlanState.mk [8, 9] (fun n => if n = 8 then some 9 else none)) 0).2 = none ∧
     (removeHandlerAt (PlanState.mk [8, 9] (fun n => if n = 8 then some 9 else none)) 0).1.next =
       (PlanState.mk [8, 9] (fun n => if n = 8 then some 9 else none)).next ∧
     (removeHandlerAt (PlanState.mk [8, 9] (fun n => if n = 8 then some 9 else none)) 0).1.handlers.length + 1 =
       (PlanState.mk [8, 9] (fun n => if n = 8 then some 9 else none)).handlers.length ∧
     List.Sublist
       (removeHandlerAt (PlanState.mk [8, 9] (fun n => if n = 8 then some 9 else none)) 0).1.handlers
       (PlanState.mk [8, 9] (fun n => if n = 8 then some 9 else none)).handlers) ∧
    (9 : Nat) ∈ (PlanState.mk [8, 9] (fun n => if n = 8 then some 9 else none)).handlers ∧
    ((removeHandler (PlanState.mk [8, 9] (fun n => if n = 8 then some 9 else none)) (some 9)).2 = none ∧
     (removeHandler (PlanState.mk [8, 9] (fun n => if n = 8 then some 9 else none)) (some 9)).1.next =
       (PlanState.mk [8, 9] (fun n => if n = 8 then some 9 else none)).next ∧
     (removeHandler (PlanState.mk [8, 9] (fun n => if n = 8 then some 9 else none)) (some 9)).1.handlers.length + 1 =
       (PlanState.mk [8, 9] (fun n => if n = 8 then some 9 else none)).handlers.length ∧
     List.Sublist
       (removeHandler (PlanState.mk [8, 9] (fun n => if n = 8 then some 9 else none)) (some 9)).1.handlers
       (PlanState.mk [8, 9] (fun n => if n = 8 then some 9 else none)).handlers) ∧
    clearHandlers (PlanState.mk [8, 9] (fun n => if n = 8 then some 9 else none)) =
      (PlanState.mk [] (PlanState.mk [8, 9] (fun n => if n = 8 then some 9 else none)).next, none) :=
  ⟨by decide, by decide,
   C9_removal_frame.1 (PlanState.mk [8, 9] (fun n => if n = 8 then some 9 else none)) 0
     (by decide) (by decide),
   by decide,
   C9_removal_frame.2.1 (PlanState.mk [8, 9] (fun n => if n = 8 then some 9 else none)) 9
     (by decide),
   C9_removal_frame.2.2 (PlanState.mk [8, 9] (fun n => if n = 8 then some 9 else none))⟩

/-- The finite acyclic chain of forward references rooted at a handler:
`isChain next a L` holds when `L` lists the handlers reached from `a` by
following `next`, ending at a handler with no successor.  Reaching an absent
successor in finitely many steps is exactly the acyclicity premise of the
claim: a repeated handler would repeat its whole continuation and never reach
an absent successor. -/
def isChain (next : Nat → Option Nat) : Nat → List Nat → Bool
  | _, [] => false
  | a, [x] => decide (a = x) && decide (next x = none)
  | a, x :: y :: rest => decide (a = x) && decide (next x = some y) && isChain next y (y :: rest)

/-- A chain starts at its root. -/
theorem isChain_head (next : Nat → Option Nat) (a x : Nat) (xs : List Nat)
    (hc : isChain next a (x :: xs) = true) : a = x := by
  cases xs with
  | nil =>
    simp only [isChain, Bool.and_eq_true, decide_eq_true_eq] at hc
    exact hc.1
  | cons y rest =>
    simp only [isChain, Bool.and_eq_true, decide_eq_true_eq] at hc
    exact hc.1.1

/-- A chain is also rooted at its own head. -/
theorem isChain_root (next : Nat → Option Nat) (a x : Nat) (xs : List Nat)
    (hc : isChain next a (x :: xs) = true) : isChain next x (x :: xs) = true := by
  cases xs with
  | nil =>
    simp only [isChain, Bool.and_eq_true, decide_eq_true_eq] at hc ⊢
    exact ⟨trivial, hc.2⟩
  | cons y rest =>
    simp only [isChain, Bool.and_eq_true, decide_eq_true_eq] at hc ⊢
    exact ⟨⟨trivial, hc.1.2⟩, hc.2⟩

/-- Every handler of a chain roots the corresponding suffix chain. -/
theorem isChain_suffix (next : Nat → Option Nat) :
    ∀ (L : List Nat) (a x : Nat), isChain next a L = true → x ∈ L →
      ∃ M, M.IsSuffix L ∧ isChain next x M = true := by
  intro L
  induction L with
  | nil => intro a x _ hx; cases hx
  | cons x0 xs ih =>
    intro a x hc hx
    rcases List.mem_cons.mp hx with he | hxs
    · refine ⟨x0 :: xs, List.suffix_refl _, ?_⟩
      rw [he]
      exact isChain_root next a x0 xs hc
    · cases xs with
      | nil => cases hxs
      | cons y rest =>
        simp only [isChain, Bool.and_eq_true, decide_eq_true_eq] at hc
        obtain ⟨M, hsuf, hcm⟩ := ih y x hc.2 hxs
        exact ⟨M, hsuf.trans (List.suffix_cons x0 (y :: rest)), hcm⟩

/-- Forward references are deterministic, so the chain of a root is unique. -/
theorem isChain_unique (next : Nat → Option Nat) :
    ∀ (L M : List Nat) (a : Nat), isChain next a L = true → isChain next a M = true →
      L = M := by
  intro L
  induction L with
  | nil => intro M a hc; simp [isChain] at hc
  | cons x xs ih =>
    intro M a hcl hcm
    cases M with
    | nil => simp [isChain] at hcm
    | cons m ms =>
      have hax := isChain_head next a x xs hcl
      have ham := isChain_head next a m ms hcm
      have hxm : m = x := by rw [← hax, ← ham]
      subst hxm
      subst hax
      cases xs with
      | nil =>
        cases ms with
        | nil => rfl
        | cons y2 r2 =>
          simp only [isChain, Bool.and_eq_true, decide_eq_true_eq] at hcl hcm
          rw [hcl.2] at hcm
          exact absurd hcm.1.2 (by simp)
      | cons y r =>
        cases ms with
        | nil =>
          simp only [isChain, Bool.and_eq_true, decide_eq_true_eq] at hcl hcm
          rw [hcm.2] at hcl
          exact absurd hcl.1.2 (by simp)
        | cons y2 r2 =>
          simp only [isChain, Bool.and_eq_true, decide_eq_true_eq] at hcl hcm
          have hy : y2 = y := Option.some.inj (hcm.1.2.symm.trans hcl.1.2)
          subst hy
          have hr := ih (y2 :: r2) y2 hcl.2 hcm.2
          rw [List.cons.injEq] at hr
          rw [hr.2]

/-- A chain never repeats a handler. -/
theorem isChain_nodup (next : Nat → Option Nat) :
    ∀ (L : List Nat) (a : Nat), isChain next a L = true → L.Nodup := by
  intro L
  induction L with
  | nil => intro a hc; simp [isChain] at hc
  | cons x xs ih =>
    intro a hc
    have hax := isChain_head next a x xs hc
    subst hax
    cases xs with
    | nil => simp
    | cons y rest =>
      have hc2 : isChain next a (a :: y :: rest) = true := hc
      simp only [isChain, Bool.and_eq_true, decide_eq_true_eq] at hc
      have hrest : (y :: rest).Nodup := ih y hc.2
      rw [List.nodup_cons]
      refine ⟨?_, hrest⟩
      intro hx
      obtain ⟨M, hsuf, hcm⟩ := isChain_suffix next (y :: rest) y a hc.2 hx
      have hLM : a :: y :: rest = M := isChain_unique next (a :: y :: rest) M a hc2 hcm
      have hlen : M.length ≤ (y :: rest).length := hsuf.length_le
      rw [← hLM] at hlen
      simp only [List.length_cons] at hlen
      omega

/-- One forwarding step of the base `invoke` at a defined context. -/
theorem invoke_step (next : Nat → Option Nat) (fuel h h2 : Nat) (hn : next h = some h2) :
    invoke next (fuel + 1) h CtxRef.isDefined =
      (invoke next fuel h2 CtxRef.isDefined).map (fun r => r.map (fun tr => h :: tr)) := by
  simp [invoke, hn]

/-- Running the base `invoke` along a chain consumes exactly the fuel of the
chain length and yields the chain as its trace. -/
theorem invoke_chain (next : Nat → Option Nat) :
    ∀ (L : List Nat) (a : Nat), isChain next a L = true →
      invoke next L.length a CtxRef.isDefined = some (Except.ok L) := by
  intro L
  induction L with
  | nil => intro a hc; simp [isChain] at hc
  | cons x xs ih =>
    intro a hc
    have hax := isChain_head next a x xs hc
    subst hax
    cases xs with
    | nil =>
      simp only [isChain, Bool.and_eq_true, decide_eq_true_eq] at hc
      simp [invoke, hc.2]
    | cons y rest =>
      simp only [isChain, Bool.and_eq_true, decide_eq_true_eq] at hc
      have hrec := ih y hc.2
      rw [List.length_cons, invoke_step next ((y :: rest).length) a y hc.1.2, hrec]
      rfl

/-- The asynchronous path is the same sequential recursion as the
synchronous one. -/
theorem invokeAsync_eq_invoke (next : Nat → Option Nat) :
    ∀ (fuel h : Nat) (ctx : CtxRef), invokeAsync next fuel h ctx = invoke next fuel h ctx := by
  intro fuel
  induction fuel with
  | zero => intro h ctx; rfl
  | succ n ih =>
    intro h ctx
    simp only [invokeAsync, invoke]
    cases next h with
    | none => rfl
    | some h2 => simp [ih h2 ctx]

/-- C10.  For a handler whose forward chain is finite and acyclic — it
reaches a handler with no successor, which forces the listed handlers to be
pairwise distinct — the base `invoke` and `invokeAsync` with a defined
context terminate within as many nested calls as the chain has handlers, and
the trace of completed invocations is exactly the chain, each handler
appearing exactly once, in chain order. -/
theorem C10_chain_invocation (next : Nat → Option Nat) (a : Nat) (L : List Nat)
    (hc : isChain next a L = true) :
    invoke next L.length a CtxRef.isDefined = some (Except.ok L) ∧
    invokeAsync next L.length a CtxRef.isDefined = some (Except.ok L) ∧
    L.Nodup := by
  refine ⟨invoke_chain next L a hc, ?_, isChain_nodup next L a hc⟩
  rw [invokeAsync_eq_invoke]
  exact invoke_chain next L a hc

/-- C10, witness at a concrete input: the two-handler chain `0 → 1`. -/
theorem C10_chain_invocation_witness :
    isChain (fun n => if n = 0 then some 1 else none) 0 [0, 1] = true ∧
    (invoke (fun n => if n = 0 then some 1 else none) ([0, 1] : List Nat).length 0
        CtxRef.isDefined = some (Except.ok [0, 1]) ∧
     invokeAsync (fun n => if n = 0 then some 1 else none) ([0, 1] : List Nat).length 0
        CtxRef.isDefined = some (Except.ok [0, 1]) ∧
     List.Nodup [0, 1]) :=
  ⟨by decide, C10_chain_invocation (fun n => if n = 0 then some 1 else none) 0 [0, 1] (by decide)⟩

end NodePipeline
